import Mathlib

set_option linter.unusedSectionVars false

/-!
Verification of a separate-chaining hash map (Rust crate `hashmap`,
file src/lib.rs).  The table stores buckets as a vector of vectors of
key-value pairs together with an occupancy counter `items`.  We embed the
data structure and its operations shallowly: buckets become
`List (List (K × V))`, the 64-bit `DefaultHasher` output becomes an
abstract pure function `hash : K → Nat` (the Rust hasher is deterministic
and seed-free, so one pure function per key type is a faithful model), and
each Rust method becomes a Lean function on the state.
-/

/-- State of the Rust `HashMap<K, V>`: the field `buckets` is
`Vec<Vec<(K, V)>>` and `items` is the occupancy counter. -/
structure HashMap (K V : Type) where
  buckets : List (List (K × V))
  items : Nat
  deriving DecidableEq, Repr

namespace HashMap

/-- Rust `HashMap::new`: empty bucket vector, zero items. -/
def new (K V : Type) : HashMap K V := ⟨[], 0⟩

variable {K V : Type} [DecidableEq K]

/-- Rust `HashMap::bucket`: hash the key with a fresh `DefaultHasher` and
reduce the 64-bit result modulo the bucket count.  The hasher is modelled
by the pure function `hash`; `nbuckets` is the bucket count used for the
reduction (`self.buckets.len()` at each call site). -/
def bucketIdx (hash : K → Nat) (nbuckets : Nat) (key : K) : Nat :=
  hash key % nbuckets

/-- The load-factor test at the top of Rust `insert`:
`self.buckets.is_empty() || self.items > 3 * self.buckets.len() / 4`. -/
def needsResize (m : HashMap K V) : Bool :=
  m.buckets.isEmpty || decide (m.items > 3 * m.buckets.length / 4)

/-- The redistribution loop of Rust `resize`: for each drained pair, push
it onto `new_buckets[hash % new_buckets.len()]`.  The recursion is the
`for` loop over the drained pairs, in drain order. -/
def distribute (hash : K → Nat) : List (K × V) → List (List (K × V)) → List (List (K × V))
  | [], bs => bs
  | kv :: rest, bs =>
      distribute hash rest
        (bs.set (bucketIdx hash bs.length kv.1)
          (bs.getD (bucketIdx hash bs.length kv.1) [] ++ [kv]))

/-- The `match` at the top of Rust `resize`: target bucket count is
`INITIAL_NBUCKETS` (10) for an empty bucket vector, double otherwise. -/
def targetSize : Nat → Nat
  | 0 => 10
  | n => 2 * n

/-- Rust `HashMap::resize`: a fresh vector of `targetSize` empty buckets
is filled by rehashing every existing pair; the items counter is
untouched. -/
def resize (hash : K → Nat) (m : HashMap K V) : HashMap K V :=
  { buckets := distribute hash m.buckets.flatten
      (List.replicate (targetSize m.buckets.length) []),
    items := m.items }

/-- The state on which Rust `insert` computes the bucket index: the
receiver after the conditional `resize` call. -/
def insertPre (hash : K → Nat) (m : HashMap K V) : HashMap K V :=
  if needsResize m then resize hash m else m

/-- The scan-and-replace loop of Rust `insert` on a single bucket: the
first entry with an equal key has its value replaced in place and the old
value is returned; if no entry matches, the pair is pushed at the end. -/
def bucketInsert (k : K) (v : V) : List (K × V) → Option V × List (K × V)
  | [] => (none, [(k, v)])
  | (ek, ev) :: rest =>
      if ek = k then (some ev, (ek, v) :: rest)
      else
        let r := bucketInsert k v rest
        (r.1, (ek, ev) :: r.2)

/-- Rust `HashMap::insert`: conditionally resize, locate the bucket, scan
it for the key, replace in place (returning the old value, items
unchanged) or push and increment `items` (returning `None`). -/
def insert (hash : K → Nat) (m : HashMap K V) (key : K) (value : V) :
    Option V × HashMap K V :=
  let m' := insertPre hash m
  let i := bucketIdx hash m'.buckets.length key
  let r := bucketInsert key value (m'.buckets.getD i [])
  (r.1,
   { buckets := m'.buckets.set i r.2,
     items := match r.1 with | some _ => m'.items | none => m'.items + 1 })

/-- Rust `HashMap::get`: early `None` on an empty bucket vector, otherwise
a linear `find` in the key's bucket. -/
def get (hash : K → Nat) (m : HashMap K V) (key : K) : Option V :=
  if m.buckets.isEmpty then none
  else
    ((m.buckets.getD (bucketIdx hash m.buckets.length key) []).find?
        (fun p => p.1 == key)).map Prod.snd

/-- Rust `HashMap::get_mut`: same early return and linear scan as `get`,
over `iter_mut`; the model returns the value the mutable reference points
to. -/
def getMut (hash : K → Nat) (m : HashMap K V) (key : K) : Option V :=
  if m.buckets.isEmpty then none
  else
    ((m.buckets.getD (bucketIdx hash m.buckets.length key) []).find?
        (fun p => p.1 == key)).map Prod.snd

/-- Rust `HashMap::len`: returns `self.items`. -/
def len (m : HashMap K V) : Nat := m.items

/-- Rust `HashMap::is_empty`: `self.items == 0`. -/
def isEmpty (m : HashMap K V) : Bool := m.items == 0

/-- Rust `HashMap::clear`: clear every bucket in place, set `items` to 0.
Clearing a `Vec` keeps its length-0 contents; the bucket vector itself
keeps its length. -/
def clear (m : HashMap K V) : HashMap K V :=
  { buckets := m.buckets.map (fun _ => []), items := 0 }

/-- Rust `HashMap::contains_key`: `self.get(key).is_some()`. -/
def containsKey (hash : K → Nat) (m : HashMap K V) (key : K) : Bool :=
  (get hash m key).isSome

/-- The `position` + `Vec::remove` pair of Rust `remove` on one bucket:
remove the first entry whose key matches and return its value. -/
def bucketRemove (k : K) : List (K × V) → Option V × List (K × V)
  | [] => (none, [])
  | (ek, ev) :: rest =>
      if ek = k then (some ev, rest)
      else
        let r := bucketRemove k rest
        (r.1, (ek, ev) :: r.2)

/-- Continuation of Rust `remove` after the bucket scan: the `?` operator
propagates a missing position as `None` and leaves the table untouched; a
hit stores the shortened bucket back and decrements `items` behind the
underflow guard. -/
def removeHit (hash : K → Nat) (m : HashMap K V) (key : K) :
    Option V × List (K × V) → Option V × HashMap K V
  | (none, _) => (none, m)
  | (some v, b) =>
      (some v,
       { buckets := m.buckets.set (bucketIdx hash m.buckets.length key) b,
         items := if m.items > 0 then m.items - 1 else m.items })

/-- Rust `HashMap::remove`: early `None` on an empty bucket vector; find
the key's position in its bucket and remove the pair there. -/
def remove (hash : K → Nat) (m : HashMap K V) (key : K) :
    Option V × HashMap K V :=
  if m.buckets.isEmpty then (none, m)
  else
    removeHit hash m key
      (bucketRemove key (m.buckets.getD (bucketIdx hash m.buckets.length key) []))

/-- One public mutating operation of the table. -/
inductive Op (K V : Type) where
  | ins (key : K) (value : V)
  | del (key : K)
  | clr
  deriving DecidableEq, Repr

/-- State transition of one public operation. -/
def applyOp (hash : K → Nat) (m : HashMap K V) : Op K V → HashMap K V
  | .ins k v => (insert hash m k v).2
  | .del k => (remove hash m k).2
  | .clr => clear m

/-- Return value of one public operation. -/
def opResult (hash : K → Nat) (m : HashMap K V) : Op K V → Option V
  | .ins k v => (insert hash m k v).1
  | .del k => (remove hash m k).1
  | .clr => none

/-- Run a sequence of public operations starting from `new`. -/
def runOps (hash : K → Nat) (ops : List (Op K V)) : HashMap K V :=
  ops.foldl (applyOp hash) (new K V)

/-- Run a sequence of operations from a given state, collecting every
return value together with the final state. -/
def runTrace (hash : K → Nat) (m : HashMap K V) :
    List (Op K V) → List (Option V) × HashMap K V
  | [] => ([], m)
  | op :: rest =>
      let r := runTrace hash (applyOp hash m op) rest
      (opResult hash m op :: r.1, r.2)

/-- Sum of the bucket lengths: the true number of stored pairs. -/
def totalLen (m : HashMap K V) : Nat := (m.buckets.map List.length).sum

/-- All keys currently stored, bucket by bucket. -/
def keys (m : HashMap K V) : List K := m.buckets.flatten.map Prod.fst

/-- Association-list lookup: value of the first pair with the given key. -/
def assoc (k : K) (l : List (K × V)) : Option V :=
  (l.find? (fun p => p.1 == k)).map Prod.snd

/-- A list of pairs holds no entry with the given key. -/
def noKey (k : K) (l : List (K × V)) : Prop := ∀ p ∈ l, p.1 ≠ k

/-- Placement invariant: every stored pair lives in the bucket selected by
its key's hash modulo the current bucket count. -/
def Placed (hash : K → Nat) (m : HashMap K V) : Prop :=
  ∀ i ∈ List.range m.buckets.length,
    ∀ p ∈ m.buckets.getD i [], bucketIdx hash m.buckets.length p.1 = i

/-- Representation invariant of the table: the counter matches the true
number of stored pairs, keys are globally duplicate-free, and every pair
sits in its home bucket. -/
def Inv (hash : K → Nat) (m : HashMap K V) : Prop :=
  m.items = totalLen m ∧ (keys m).Nodup ∧ Placed hash m

instance (k : K) (l : List (K × V)) : Decidable (noKey k l) := by
  unfold noKey; infer_instance

instance (hash : K → Nat) (m : HashMap K V) : Decidable (Placed hash m) := by
  unfold Placed; infer_instance

instance (hash : K → Nat) (m : HashMap K V) : Decidable (Inv hash m) := by
  unfold Inv; infer_instance

/-! ### Basic list lemmas used by the development -/

theorem getD_set_self {α : Type} (l : List α) (i : Nat) (a d : α)
    (h : i < l.length) : (l.set i a).getD i d = a := by
  rw [List.getD_eq_getElem?_getD, List.getElem?_set_self h]
  rfl

theorem getD_set_ne {α : Type} (l : List α) {i j : Nat} (a d : α)
    (h : i ≠ j) : (l.set i a).getD j d = l.getD j d := by
  rw [List.getD_eq_getElem?_getD, List.getElem?_set_ne h,
    ← List.getD_eq_getElem?_getD]

theorem flatten_decomp {α : Type} (bs : List (List α)) (i : Nat)
    (h : i < bs.length) :
    bs.flatten = (bs.take i).flatten ++ bs.getD i [] ++ (bs.drop (i + 1)).flatten := by
  induction bs generalizing i with
  | nil => simp at h
  | cons b bs ih =>
    cases i with
    | zero => simp
    | succ i =>
      simp only [List.take_succ_cons, List.drop_succ_cons, List.flatten_cons,
        List.getD_cons_succ]
      rw [ih i (by simpa using h)]
      simp [List.append_assoc]

theorem flatten_set {α : Type} (bs : List (List α)) (i : Nat) (b : List α)
    (h : i < bs.length) :
    (bs.set i b).flatten = (bs.take i).flatten ++ b ++ (bs.drop (i + 1)).flatten := by
  rw [List.set_eq_take_append_cons_drop, if_pos h]
  simp [List.append_assoc]

theorem mem_flatten_take {α : Type} {bs : List (List α)} {i : Nat} {p : α}
    (hp : p ∈ (bs.take i).flatten) :
    ∃ j, j < i ∧ j < bs.length ∧ p ∈ bs.getD j [] := by
  induction bs generalizing i with
  | nil => simp at hp
  | cons b bs ih =>
    cases i with
    | zero => simp at hp
    | succ i =>
      simp only [List.take_succ_cons, List.flatten_cons, List.mem_append] at hp
      rcases hp with hp | hp
      · exact ⟨0, Nat.succ_pos _, by simp, by simpa using hp⟩
      · obtain ⟨j, hj1, hj2, hj3⟩ := ih hp
        exact ⟨j + 1, by omega, by simpa using hj2, by simpa using hj3⟩

theorem mem_flatten_drop {α : Type} {bs : List (List α)} {i : Nat} {p : α}
    (hp : p ∈ (bs.drop i).flatten) :
    ∃ j, i ≤ j ∧ j < bs.length ∧ p ∈ bs.getD j [] := by
  induction bs generalizing i with
  | nil => simp at hp
  | cons b bs ih =>
    cases i with
    | zero =>
      rw [List.drop_zero, List.flatten_cons, List.mem_append] at hp
      rcases hp with hp | hp
      · exact ⟨0, Nat.le_refl _, by simp, by simpa using hp⟩
      · obtain ⟨j, _, hj2, hj3⟩ := ih (i := 0) (by simpa using hp)
        exact ⟨j + 1, by omega, by simpa using hj2, by simpa using hj3⟩
    | succ i =>
      rw [List.drop_succ_cons] at hp
      obtain ⟨j, hj1, hj2, hj3⟩ := ih hp
      exact ⟨j + 1, by omega, by simpa using hj2, by simpa using hj3⟩

theorem mem_getD_flatten {α : Type} {bs : List (List α)} {i : Nat}
    (h : i < bs.length) {p : α} (hp : p ∈ bs.getD i []) : p ∈ bs.flatten := by
  rw [flatten_decomp bs i h]
  simp only [List.mem_append]
  exact Or.inl (Or.inr hp)

/-! ### Lemmas about association-list lookup -/

theorem assoc_noKey {k : K} {l : List (K × V)} (h : noKey k l) :
    assoc k l = none := by
  unfold assoc
  rw [List.find?_eq_none.mpr]
  · rfl
  · intro p hp
    simpa using h p hp

theorem assoc_eq_none_iff {k : K} {l : List (K × V)} :
    assoc k l = none ↔ noKey k l := by
  constructor
  · intro h p hp hpk
    unfold assoc at h
    rcases hfind : l.find? (fun q => q.1 == k) with _ | q
    · exact absurd (List.find?_eq_none.mp hfind p hp) (by simp [hpk])
    · rw [hfind] at h
      simp at h
  · exact assoc_noKey

theorem assoc_append_left {k : K} {l₁ : List (K × V)} (l₂ : List (K × V))
    (h : noKey k l₁) : assoc k (l₁ ++ l₂) = assoc k l₂ := by
  unfold assoc
  rw [List.find?_append, List.find?_eq_none.mpr (fun p hp => by simpa using h p hp)]
  rfl

theorem assoc_append_right {k : K} (l₁ : List (K × V)) {l₂ : List (K × V)}
    (h : noKey k l₂) : assoc k (l₁ ++ l₂) = assoc k l₁ := by
  unfold assoc
  have h2 : l₂.find? (fun p => p.1 == k) = none :=
    List.find?_eq_none.mpr (fun p hp => by simpa using h p hp)
  rw [List.find?_append, h2, Option.or_none]

theorem assoc_middle {k k' : K} {w : V} (l₁ l₂ : List (K × V)) (h : k ≠ k') :
    assoc k' (l₁ ++ (k, w) :: l₂) = assoc k' (l₁ ++ l₂) := by
  unfold assoc
  rw [List.find?_append, List.find?_append, List.find?_cons_of_neg _ (by simpa using h)]

theorem assoc_perm {k : K} {l₁ l₂ : List (K × V)} (hp : l₁.Perm l₂)
    (hn : (l₁.map Prod.fst).Nodup) : assoc k l₁ = assoc k l₂ := by
  rcases h1 : assoc k l₁ with _ | v
  · rw [eq_comm, assoc_eq_none_iff]
    intro p hp2
    exact (assoc_eq_none_iff.mp h1) p (hp.mem_iff.mpr hp2)
  · unfold assoc at h1
    obtain ⟨p, hfind, hmap⟩ := Option.map_eq_some'.mp h1
    have hpmem := List.mem_of_find?_eq_some hfind
    have hpk : p.1 = k := by simpa using List.find?_some hfind
    rcases h2 : l₂.find? (fun q => q.1 == k) with _ | q
    · exact absurd (List.find?_eq_none.mp h2 p (hp.mem_iff.mp hpmem)) (by simp [hpk])
    · have hqmem := List.mem_of_find?_eq_some h2
      have hqk : q.1 = k := by simpa using List.find?_some h2
      have hpq : p = q :=
        List.inj_on_of_nodup_map hn hpmem (hp.mem_iff.mpr hqmem) (by rw [hpk, hqk])
      unfold assoc
      rw [h2, ← hpq]
      simp [hmap]

/-! ### Lemmas about the single-bucket scan loops -/

theorem bucketInsert_spec (k : K) (v : V) (b : List (K × V)) :
    (noKey k b ∧ bucketInsert k v b = (none, b ++ [(k, v)])) ∨
    (∃ w b₁ b₂, b = b₁ ++ (k, w) :: b₂ ∧ noKey k b₁ ∧
      bucketInsert k v b = (some w, b₁ ++ (k, v) :: b₂)) := by
  induction b with
  | nil => exact Or.inl ⟨fun p hp => absurd hp (List.not_mem_nil p), rfl⟩
  | cons p b ih =>
    obtain ⟨ek, ev⟩ := p
    by_cases hek : ek = k
    · subst hek
      exact Or.inr ⟨ev, [], b, rfl, fun q hq => absurd hq (List.not_mem_nil q),
        by simp [bucketInsert]⟩
    · rcases ih with ⟨h1, h2⟩ | ⟨w, b₁, b₂, hb, hnk, heq⟩
      · refine Or.inl ⟨?_, ?_⟩
        · intro q hq
          rcases List.mem_cons.mp hq with rfl | hq
          · exact hek
          · exact h1 q hq
        · simp [bucketInsert, hek, h2]
      · refine Or.inr ⟨w, (ek, ev) :: b₁, b₂, by simp [hb], ?_, ?_⟩
        · intro q hq
          rcases List.mem_cons.mp hq with rfl | hq
          · exact hek
          · exact hnk q hq
        · simp [bucketInsert, hek, heq]

theorem bucketInsert_fst (k : K) (v : V) (b : List (K × V)) :
    (bucketInsert k v b).1 = assoc k b := by
  induction b with
  | nil => rfl
  | cons p b ih =>
    obtain ⟨ek, ev⟩ := p
    by_cases hek : ek = k
    · subst hek
      unfold bucketInsert assoc
      simp
    · rw [show bucketInsert k v ((ek, ev) :: b) =
        ((bucketInsert k v b).1, (ek, ev) :: (bucketInsert k v b).2) by
          simp [bucketInsert, hek]]
      unfold assoc
      rw [List.find?_cons_of_neg _ (by simpa using hek)]
      exact ih

theorem bucketInsert_assoc (k : K) (v : V) (b : List (K × V)) :
    assoc k (bucketInsert k v b).2 = some v := by
  rcases bucketInsert_spec k v b with ⟨hnk0, heq⟩ | ⟨w, b₁, b₂, -, hnk, heq⟩
  · rw [heq, assoc_append_left _ hnk0]
    unfold assoc
    rw [List.find?_cons_of_pos _ (by simp)]
    rfl
  · rw [heq, assoc_append_left _ hnk]
    unfold assoc
    rw [List.find?_cons_of_pos _ (by simp)]
    rfl

theorem bucketInsert_mem (k : K) (v : V) (b : List (K × V)) {p : K × V}
    (hp : p ∈ (bucketInsert k v b).2) : p.1 = k ∨ ∃ q ∈ b, q.1 = p.1 := by
  rcases bucketInsert_spec k v b with ⟨-, heq⟩ | ⟨w, b₁, b₂, hb, -, heq⟩
  · rw [heq] at hp
    rcases List.mem_append.mp hp with hp | hp
    · exact Or.inr ⟨p, hp, rfl⟩
    · simp at hp
      subst hp
      exact Or.inl rfl
  · rw [heq] at hp
    simp only [List.mem_append, List.mem_cons] at hp
    rcases hp with hp | hp | hp
    · exact Or.inr ⟨p, by simp [hb, hp], rfl⟩
    · subst hp
      exact Or.inl rfl
    · exact Or.inr ⟨p, by simp [hb, hp], rfl⟩

theorem bucketRemove_spec (k : K) (b : List (K × V)) :
    (bucketRemove k b = (none, b) ∧ noKey k b) ∨
    (∃ w b₁ b₂, b = b₁ ++ (k, w) :: b₂ ∧ noKey k b₁ ∧
      bucketRemove k b = (some w, b₁ ++ b₂)) := by
  induction b with
  | nil => exact Or.inl ⟨rfl, fun p hp => absurd hp (List.not_mem_nil p)⟩
  | cons p b ih =>
    obtain ⟨ek, ev⟩ := p
    by_cases hek : ek = k
    · subst hek
      exact Or.inr ⟨ev, [], b, rfl, fun q hq => absurd hq (List.not_mem_nil q),
        by simp [bucketRemove]⟩
    · rcases ih with ⟨h1, h3⟩ | ⟨w, b₁, b₂, hb, hnk, heq⟩
      · refine Or.inl ⟨by simp [bucketRemove, hek, h1], ?_⟩
        intro q hq
        rcases List.mem_cons.mp hq with rfl | hq
        · exact hek
        · exact h3 q hq
      · refine Or.inr ⟨w, (ek, ev) :: b₁, b₂, by simp [hb], ?_, ?_⟩
        · intro q hq
          rcases List.mem_cons.mp hq with rfl | hq
          · exact hek
          · exact hnk q hq
        · simp [bucketRemove, hek, heq]

theorem bucketRemove_fst (k : K) (b : List (K × V)) :
    (bucketRemove k b).1 = assoc k b := by
  induction b with
  | nil => rfl
  | cons p b ih =>
    obtain ⟨ek, ev⟩ := p
    by_cases hek : ek = k
    · subst hek
      unfold bucketRemove assoc
      simp
    · rw [show bucketRemove k ((ek, ev) :: b) =
        ((bucketRemove k b).1, (ek, ev) :: (bucketRemove k b).2) by
          simp [bucketRemove, hek]]
      unfold assoc
      rw [List.find?_cons_of_neg _ (by simpa using hek)]
      exact ih

/-! ### Lemmas about redistribution and resize -/

theorem distribute_length (hash : K → Nat) (pairs : List (K × V))
    (bs : List (List (K × V))) :
    (distribute hash pairs bs).length = bs.length := by
  induction pairs generalizing bs with
  | nil => rfl
  | cons kv rest ih => rw [distribute, ih, List.length_set]

theorem distribute_getD (hash : K → Nat) (pairs : List (K × V))
    (bs : List (List (K × V))) (j : Nat) (hj : j < bs.length) :
    (distribute hash pairs bs).getD j [] =
      bs.getD j [] ++ pairs.filter (fun p => bucketIdx hash bs.length p.1 == j) := by
  induction pairs generalizing bs with
  | nil => simp [distribute]
  | cons kv rest ih =>
    rw [distribute]
    have hlen : (bs.set (bucketIdx hash bs.length kv.1)
        (bs.getD (bucketIdx hash bs.length kv.1) [] ++ [kv])).length = bs.length :=
      List.length_set ..
    rw [ih _ (by rw [hlen]; exact hj), hlen]
    by_cases hij : bucketIdx hash bs.length kv.1 = j
    · rw [hij, getD_set_self _ _ _ _ (hij ▸ hj)]
      rw [List.filter_cons_of_pos (by simpa using hij)]
      simp [List.append_assoc]
    · rw [getD_set_ne _ _ _ hij]
      rw [List.filter_cons_of_neg (by simpa using hij)]

theorem flatten_set_perm {α : Type} (bs : List (List α)) (i : Nat) (x : α)
    (h : i < bs.length) :
    (bs.set i (bs.getD i [] ++ [x])).flatten.Perm (bs.flatten ++ [x]) := by
  rw [flatten_set bs i _ h]
  conv_rhs => rw [flatten_decomp bs i h]
  simp only [List.append_assoc]
  exact List.Perm.append_left _ (List.Perm.append_left _ List.perm_append_comm)

theorem distribute_flatten_perm (hash : K → Nat) (pairs : List (K × V))
    (bs : List (List (K × V))) (h : 0 < bs.length) :
    (distribute hash pairs bs).flatten.Perm (bs.flatten ++ pairs) := by
  induction pairs generalizing bs with
  | nil => simp [distribute]
  | cons kv rest ih =>
    rw [distribute]
    have hi : bucketIdx hash bs.length kv.1 < bs.length := Nat.mod_lt _ h
    refine (ih _ (by rw [List.length_set]; exact h)).trans ?_
    refine ((flatten_set_perm bs _ kv hi).append_right rest).trans ?_
    rw [List.append_assoc]
    exact List.Perm.refl _

theorem targetSize_pos (n : Nat) : 0 < targetSize n := by
  cases n with
  | zero => simp [targetSize]
  | succ n => simp [targetSize]

theorem resize_length (hash : K → Nat) (m : HashMap K V) :
    (resize hash m).buckets.length = targetSize m.buckets.length := by
  simp [resize, distribute_length, List.length_replicate]

theorem resize_length_pos (hash : K → Nat) (m : HashMap K V) :
    0 < (resize hash m).buckets.length := by
  rw [resize_length]
  exact targetSize_pos _

theorem resize_items (hash : K → Nat) (m : HashMap K V) :
    (resize hash m).items = m.items := rfl

theorem resize_flatten_perm (hash : K → Nat) (m : HashMap K V) :
    (resize hash m).buckets.flatten.Perm m.buckets.flatten := by
  unfold resize
  refine (distribute_flatten_perm hash _ _ ?_).trans ?_
  · rw [List.length_replicate]
    exact targetSize_pos _
  · rw [List.flatten_replicate_nil, List.nil_append]

theorem getD_replicate_nil {α : Type} (n j : Nat) :
    (List.replicate n ([] : List α)).getD j [] = [] := by
  induction n generalizing j with
  | zero => cases j <;> rfl
  | succ n ih =>
    cases j with
    | zero => rfl
    | succ j =>
      rw [List.replicate_succ, List.getD_cons_succ]
      exact ih j

theorem resize_placed (hash : K → Nat) (m : HashMap K V) :
    Placed hash (resize hash m) := by
  intro i hi p hp
  rw [List.mem_range, resize_length] at hi
  rw [resize_length]
  have hbuckets : (resize hash m).buckets =
      distribute hash m.buckets.flatten
        (List.replicate (targetSize m.buckets.length) []) := rfl
  rw [hbuckets] at hp
  rw [distribute_getD hash _ _ i (by rw [List.length_replicate]; exact hi)] at hp
  rw [getD_replicate_nil, List.nil_append, List.length_replicate] at hp
  have := List.of_mem_filter hp
  simpa using this

/-! ### Semantic characterisation of the operations -/

theorem totalLen_eq_flatten (m : HashMap K V) :
    totalLen m = m.buckets.flatten.length := by
  unfold totalLen
  rw [List.length_flatten]

theorem Inv_resize (hash : K → Nat) {m : HashMap K V} (h : Inv hash m) :
    Inv hash (resize hash m) := by
  obtain ⟨h1, h2, h3⟩ := h
  refine ⟨?_, ?_, resize_placed hash m⟩
  · rw [totalLen_eq_flatten, (resize_flatten_perm hash m).length_eq,
      resize_items, ← totalLen_eq_flatten]
    exact h1
  · unfold keys at h2 ⊢
    exact (((resize_flatten_perm hash m).map Prod.fst).nodup_iff).mpr h2

theorem get_eq_assoc_bucket (hash : K → Nat) (m : HashMap K V)
    (hL : 0 < m.buckets.length) (k : K) :
    get hash m k =
      assoc k (m.buckets.getD (bucketIdx hash m.buckets.length k) []) := by
  unfold get assoc
  rw [if_neg]
  intro he
  rw [List.isEmpty_iff.mp he] at hL
  simp at hL

theorem noKey_take (hash : K → Nat) {m : HashMap K V} (hplace : Placed hash m)
    (k : K) :
    noKey k ((m.buckets.take (bucketIdx hash m.buckets.length k)).flatten) := by
  intro p hp hpk
  obtain ⟨j, hj1, hj2, hj3⟩ := mem_flatten_take hp
  have := hplace j (List.mem_range.mpr hj2) p hj3
  rw [hpk] at this
  omega

theorem noKey_drop (hash : K → Nat) {m : HashMap K V} (hplace : Placed hash m)
    (k : K) :
    noKey k ((m.buckets.drop (bucketIdx hash m.buckets.length k + 1)).flatten) := by
  intro p hp hpk
  obtain ⟨j, hj1, hj2, hj3⟩ := mem_flatten_drop hp
  have := hplace j (List.mem_range.mpr hj2) p hj3
  rw [hpk] at this
  omega

theorem get_eq_assoc (hash : K → Nat) {m : HashMap K V} (h : Inv hash m)
    (k : K) : get hash m k = assoc k m.buckets.flatten := by
  obtain ⟨-, -, hplace⟩ := h
  by_cases he : m.buckets.isEmpty
  · unfold get
    rw [if_pos he, List.isEmpty_iff.mp he]
    rfl
  · have hL : 0 < m.buckets.length := by
      rw [List.length_pos]
      exact fun hnil => he (List.isEmpty_iff.mpr hnil)
    have hi : bucketIdx hash m.buckets.length k < m.buckets.length :=
      Nat.mod_lt _ hL
    rw [get_eq_assoc_bucket hash m hL k, flatten_decomp m.buckets _ hi,
      assoc_append_right _ (noKey_drop hash hplace k),
      assoc_append_left _ (noKey_take hash hplace k)]

theorem get_resize (hash : K → Nat) {m : HashMap K V} (h : Inv hash m)
    (k : K) : get hash (resize hash m) k = get hash m k := by
  rw [get_eq_assoc hash (Inv_resize hash h) k, get_eq_assoc hash h k]
  exact assoc_perm (resize_flatten_perm hash m) (Inv_resize hash h).2.1

theorem Inv_insertPre (hash : K → Nat) {m : HashMap K V} (h : Inv hash m) :
    Inv hash (insertPre hash m) := by
  unfold insertPre
  split
  · exact Inv_resize hash h
  · exact h

theorem get_insertPre (hash : K → Nat) {m : HashMap K V} (h : Inv hash m)
    (k : K) : get hash (insertPre hash m) k = get hash m k := by
  unfold insertPre
  split
  · exact get_resize hash h k
  · rfl

theorem insertPre_length_pos (hash : K → Nat) (m : HashMap K V) :
    0 < (insertPre hash m).buckets.length := by
  unfold insertPre
  split
  · exact resize_length_pos hash m
  · rename_i hc
    unfold needsResize at hc
    rw [List.length_pos]
    intro hnil
    simp [hnil] at hc

theorem insert_buckets (hash : K → Nat) (m : HashMap K V) (k : K) (v : V) :
    (insert hash m k v).2.buckets =
      (insertPre hash m).buckets.set
        (bucketIdx hash (insertPre hash m).buckets.length k)
        (bucketInsert k v ((insertPre hash m).buckets.getD
          (bucketIdx hash (insertPre hash m).buckets.length k) [])).2 := rfl

theorem insert_fst (hash : K → Nat) {m : HashMap K V} (h : Inv hash m)
    (k : K) (v : V) : (insert hash m k v).1 = get hash m k := by
  have h' := Inv_insertPre hash h
  have hL := insertPre_length_pos hash m
  show (bucketInsert k v _).1 = _
  rw [bucketInsert_fst, ← get_eq_assoc_bucket hash _ hL k, get_insertPre hash h k]

theorem get_insert_self (hash : K → Nat) (m : HashMap K V) (k : K) (v : V) :
    get hash (insert hash m k v).2 k = some v := by
  have hL := insertPre_length_pos hash m
  have hi : bucketIdx hash (insertPre hash m).buckets.length k <
      (insertPre hash m).buckets.length := Nat.mod_lt _ hL
  have hlen : (insert hash m k v).2.buckets.length =
      (insertPre hash m).buckets.length := by
    rw [insert_buckets, List.length_set]
  have hL2 : 0 < (insert hash m k v).2.buckets.length := by rw [hlen]; exact hL
  rw [get_eq_assoc_bucket hash _ hL2 k, hlen, insert_buckets,
    getD_set_self _ _ _ _ hi]
  exact bucketInsert_assoc k v _

theorem insert_items_formula (hash : K → Nat) {m : HashMap K V}
    (h : Inv hash m) (k : K) (v : V) :
    (insert hash m k v).2.items =
      match get hash m k with
      | some _ => m.items
      | none => m.items + 1 := by
  have h' := Inv_insertPre hash h
  have hL := insertPre_length_pos hash m
  have hfst := insert_fst hash h k v
  have hpre : (insertPre hash m).items = m.items := by
    unfold insertPre
    split
    · rfl
    · rfl
  show (match (bucketInsert k v _).1 with
    | some _ => (insertPre hash m).items
    | none => (insertPre hash m).items + 1) = _
  have : (bucketInsert k v ((insertPre hash m).buckets.getD
      (bucketIdx hash (insertPre hash m).buckets.length k) [])).1 =
      get hash m k := hfst
  rw [this, hpre]

theorem not_mem_map_fst_of_noKey {k : K} {l : List (K × V)} (h : noKey k l) :
    k ∉ l.map Prod.fst := by
  intro hk
  obtain ⟨p, hp, hpk⟩ := List.mem_map.mp hk
  exact h p hp hpk

theorem Inv_insert (hash : K → Nat) {m : HashMap K V} (h : Inv hash m)
    (k : K) (v : V) : Inv hash (insert hash m k v).2 := by
  obtain ⟨h1, h2, h3⟩ := Inv_insertPre hash h
  have hL := insertPre_length_pos hash m
  have hi : bucketIdx hash (insertPre hash m).buckets.length k <
      (insertPre hash m).buckets.length := Nat.mod_lt _ hL
  have hdecomp := flatten_decomp (insertPre hash m).buckets _ hi
  have hitems : (insert hash m k v).2.items =
      match (bucketInsert k v ((insertPre hash m).buckets.getD
        (bucketIdx hash (insertPre hash m).buckets.length k) [])).1 with
      | some _ => (insertPre hash m).items
      | none => (insertPre hash m).items + 1 := rfl
  have hlen : (insert hash m k v).2.buckets.length =
      (insertPre hash m).buckets.length := by
    rw [insert_buckets, List.length_set]
  rcases bucketInsert_spec k v ((insertPre hash m).buckets.getD
      (bucketIdx hash (insertPre hash m).buckets.length k) []) with
    ⟨hnk, heq⟩ | ⟨w, b₁, b₂, hb, hnk1, heq⟩
  · -- key was absent: the pair is appended and items incremented
    have hflat : (insert hash m k v).2.buckets.flatten =
        ((insertPre hash m).buckets.take
            (bucketIdx hash (insertPre hash m).buckets.length k)).flatten ++
          ((insertPre hash m).buckets.getD
            (bucketIdx hash (insertPre hash m).buckets.length k) [] ++ [(k, v)]) ++
          ((insertPre hash m).buckets.drop
            (bucketIdx hash (insertPre hash m).buckets.length k + 1)).flatten := by
      rw [insert_buckets, heq, flatten_set _ _ _ hi]
    have hfst : (bucketInsert k v ((insertPre hash m).buckets.getD
        (bucketIdx hash (insertPre hash m).buckets.length k) [])).1 = none := by
      rw [heq]
    have hitems2 : (insert hash m k v).2.items = (insertPre hash m).items + 1 := by
      rw [hitems, hfst]
    refine ⟨?_, ?_, ?_⟩
    · rw [hitems2, totalLen_eq_flatten, hflat]
      simp only [List.length_append, List.length_cons, List.length_nil]
      have : (insertPre hash m).items = totalLen (insertPre hash m) := h1
      rw [totalLen_eq_flatten, hdecomp] at this
      simp only [List.length_append] at this
      omega
    · unfold keys at h2 ⊢
      rw [hflat]
      have hperm : ((((insertPre hash m).buckets.take
            (bucketIdx hash (insertPre hash m).buckets.length k)).flatten ++
          ((insertPre hash m).buckets.getD
            (bucketIdx hash (insertPre hash m).buckets.length k) [] ++ [(k, v)]) ++
          ((insertPre hash m).buckets.drop
            (bucketIdx hash (insertPre hash m).buckets.length k + 1)).flatten).map
            Prod.fst).Perm
          (k :: ((insertPre hash m).buckets.flatten.map Prod.fst)) := by
        rw [hdecomp]
        simp only [List.map_append, List.map_cons, List.map_nil,
          List.append_assoc, List.singleton_append]
        exact (List.Perm.append_left _ List.perm_middle).trans List.perm_middle
      rw [hperm.nodup_iff, List.nodup_cons]
      refine ⟨?_, h2⟩
      rw [hdecomp]
      simp only [List.map_append, List.mem_append]
      push_neg
      exact ⟨⟨not_mem_map_fst_of_noKey (noKey_take hash h3 k),
        not_mem_map_fst_of_noKey hnk⟩,
        not_mem_map_fst_of_noKey (noKey_drop hash h3 k)⟩
    · intro j hj p hp
      rw [List.mem_range, hlen] at hj
      rw [hlen]
      rw [insert_buckets] at hp
      by_cases hij : bucketIdx hash (insertPre hash m).buckets.length k = j
      · rw [← hij] at hp ⊢
        rw [getD_set_self _ _ _ _ hi] at hp
        rcases bucketInsert_mem k v _ hp with hpk | ⟨q, hq, hqk⟩
        · rw [hpk]
        · rw [← hqk]
          exact h3 _ (List.mem_range.mpr hi) q hq
      · rw [getD_set_ne _ _ _ hij] at hp
        exact h3 j (List.mem_range.mpr hj) p hp
  · -- key was present: the value is replaced in place, items unchanged
    have hflat : (insert hash m k v).2.buckets.flatten =
        ((insertPre hash m).buckets.take
            (bucketIdx hash (insertPre hash m).buckets.length k)).flatten ++
          (b₁ ++ (k, v) :: b₂) ++
          ((insertPre hash m).buckets.drop
            (bucketIdx hash (insertPre hash m).buckets.length k + 1)).flatten := by
      rw [insert_buckets, heq, flatten_set _ _ _ hi]
    have hfst : (bucketInsert k v ((insertPre hash m).buckets.getD
        (bucketIdx hash (insertPre hash m).buckets.length k) [])).1 = some w := by
      rw [heq]
    have hitems2 : (insert hash m k v).2.items = (insertPre hash m).items := by
      rw [hitems, hfst]
    refine ⟨?_, ?_, ?_⟩
    · rw [hitems2, totalLen_eq_flatten, hflat]
      simp only [List.length_append, List.length_cons]
      have : (insertPre hash m).items = totalLen (insertPre hash m) := h1
      rw [totalLen_eq_flatten, hdecomp, hb] at this
      simp only [List.length_append, List.length_cons] at this
      omega
    · unfold keys at h2 ⊢
      rw [hflat]
      rw [hdecomp, hb] at h2
      simp only [List.map_append, List.map_cons] at h2 ⊢
      exact h2
    · intro j hj p hp
      rw [List.mem_range, hlen] at hj
      rw [hlen]
      rw [insert_buckets] at hp
      by_cases hij : bucketIdx hash (insertPre hash m).buckets.length k = j
      · rw [← hij] at hp ⊢
        rw [getD_set_self _ _ _ _ hi, heq] at hp
        simp only [List.mem_append, List.mem_cons] at hp
        rcases hp with hp | hp | hp
        · refine h3 _ (List.mem_range.mpr hi) p ?_
          rw [hb]
          simp [hp]
        · rw [hp]
        · refine h3 _ (List.mem_range.mpr hi) p ?_
          rw [hb]
          simp [hp]
      · rw [getD_set_ne _ _ _ hij] at hp
        exact h3 j (List.mem_range.mpr hj) p hp

/-! ### Lemmas about remove and clear -/

theorem buckets_length_pos {m : HashMap K V} (he : ¬ m.buckets.isEmpty = true) :
    0 < m.buckets.length := by
  rw [List.length_pos]
  exact fun hnil => he (List.isEmpty_iff.mpr hnil)

theorem remove_of_empty (hash : K → Nat) (m : HashMap K V) (k : K)
    (he : m.buckets.isEmpty = true) : remove hash m k = (none, m) := by
  unfold remove
  rw [if_pos he]

theorem remove_fst (hash : K → Nat) (m : HashMap K V) (k : K) :
    (remove hash m k).1 = get hash m k := by
  by_cases he : m.buckets.isEmpty
  · unfold remove get
    rw [if_pos he, if_pos he]
  · have hL := buckets_length_pos he
    rw [get_eq_assoc_bucket hash m hL k, ← bucketRemove_fst]
    unfold remove
    rw [if_neg he]
    rcases bucketRemove_spec k (m.buckets.getD
        (bucketIdx hash m.buckets.length k) []) with ⟨heq, -⟩ | ⟨w, b₁, b₂, -, -, heq⟩ <;>
      rw [heq] <;> rfl

theorem remove_buckets_length (hash : K → Nat) (m : HashMap K V) (k : K) :
    (remove hash m k).2.buckets.length = m.buckets.length := by
  by_cases he : m.buckets.isEmpty
  · rw [remove_of_empty hash m k he]
  · unfold remove
    rw [if_neg he]
    rcases bucketRemove_spec k (m.buckets.getD
        (bucketIdx hash m.buckets.length k) []) with ⟨heq, -⟩ | ⟨w, b₁, b₂, -, -, heq⟩ <;>
      rw [heq]
    · rfl
    · simp [removeHit, List.length_set]

theorem remove_none (hash : K → Nat) (m : HashMap K V) (k : K)
    (h : get hash m k = none) : remove hash m k = (none, m) := by
  by_cases he : m.buckets.isEmpty
  · exact remove_of_empty hash m k he
  · have hL := buckets_length_pos he
    unfold remove
    rw [if_neg he]
    rcases bucketRemove_spec k (m.buckets.getD
        (bucketIdx hash m.buckets.length k) []) with ⟨heq, -⟩ | ⟨w, b₁, b₂, hb, -, heq⟩
    · rw [heq]
      rfl
    · exfalso
      have hfst : (bucketRemove k (m.buckets.getD
          (bucketIdx hash m.buckets.length k) [])).1 = some w := by rw [heq]
      rw [bucketRemove_fst, ← get_eq_assoc_bucket hash m hL k, h] at hfst
      simp at hfst

theorem remove_found (hash : K → Nat) {m : HashMap K V} (h : Inv hash m)
    {k : K} {v : V} (hget : get hash m k = some v) :
    (remove hash m k).1 = some v ∧
    (remove hash m k).2.items + 1 = m.items ∧
    get hash (remove hash m k).2 k = none ∧
    (∀ k', k' ≠ k → get hash (remove hash m k).2 k' = get hash m k') ∧
    Inv hash (remove hash m k).2 := by
  obtain ⟨h1, h2, h3⟩ := h
  by_cases he : m.buckets.isEmpty
  · exfalso
    unfold get at hget
    rw [if_pos he] at hget
    simp at hget
  have hL := buckets_length_pos he
  have hi : bucketIdx hash m.buckets.length k < m.buckets.length := Nat.mod_lt _ hL
  have hdecomp := flatten_decomp m.buckets _ hi
  rcases bucketRemove_spec k (m.buckets.getD (bucketIdx hash m.buckets.length k) [])
    with ⟨heq, hnk⟩ | ⟨w, b₁, b₂, hb, hnk1, heq⟩
  · exfalso
    rw [get_eq_assoc_bucket hash m hL k, assoc_noKey hnk] at hget
    simp at hget
  have hwv : v = w := by
    have hfst : (bucketRemove k (m.buckets.getD
        (bucketIdx hash m.buckets.length k) [])).1 = some w := by rw [heq]
    rw [bucketRemove_fst, ← get_eq_assoc_bucket hash m hL k, hget] at hfst
    exact Option.some_inj.mp hfst
  subst hwv
  have hrm : remove hash m k =
      (some v,
       { buckets := m.buckets.set (bucketIdx hash m.buckets.length k) (b₁ ++ b₂),
         items := if m.items > 0 then m.items - 1 else m.items }) := by
    unfold remove
    rw [if_neg he, heq]
    rfl
  have hipos : 0 < m.items := by
    rw [h1, totalLen_eq_flatten, hdecomp, hb]
    simp only [List.length_append, List.length_cons]
    omega
  have hitems : (remove hash m k).2.items = m.items - 1 := by
    rw [hrm]
    simp [hipos]
  have hbuckets2 : (remove hash m k).2.buckets =
      m.buckets.set (bucketIdx hash m.buckets.length k) (b₁ ++ b₂) := by
    rw [hrm]
  have hflat2 : (remove hash m k).2.buckets.flatten =
      (m.buckets.take (bucketIdx hash m.buckets.length k)).flatten ++ (b₁ ++ b₂) ++
        (m.buckets.drop (bucketIdx hash m.buckets.length k + 1)).flatten := by
    rw [hbuckets2, flatten_set _ _ _ hi]
  have hsub : ((m.buckets.take (bucketIdx hash m.buckets.length k)).flatten ++
      (b₁ ++ b₂) ++
      (m.buckets.drop (bucketIdx hash m.buckets.length k + 1)).flatten).Sublist
      m.buckets.flatten := by
    rw [hdecomp, hb]
    exact ((List.Sublist.append_left
      ((List.Sublist.refl b₂).cons (k, v)) b₁).append_left _).append_right _
  have hnodupb : ((m.buckets.getD (bucketIdx hash m.buckets.length k) []).map
      Prod.fst).Nodup := by
    refine List.Nodup.sublist (List.Sublist.map Prod.fst ?_) h2
    rw [hdecomp]
    exact List.Sublist.trans (List.sublist_append_right _ _)
      (List.sublist_append_left _ _)
  have hnk2 : noKey k b₂ := by
    rw [hb] at hnodupb
    simp only [List.map_append, List.map_cons] at hnodupb
    have hcons := List.Nodup.of_append_right hnodupb
    rw [List.nodup_cons] at hcons
    intro p hp hpk
    exact hcons.1 (List.mem_map.mpr ⟨p, hp, hpk⟩)
  have hnk12 : noKey k (b₁ ++ b₂) := by
    intro p hp
    rcases List.mem_append.mp hp with hp | hp
    · exact hnk1 p hp
    · exact hnk2 p hp
  have hL2 : 0 < (remove hash m k).2.buckets.length := by
    rw [remove_buckets_length]
    exact hL
  have hget2 : get hash (remove hash m k).2 k = none := by
    rw [get_eq_assoc_bucket hash _ hL2 k, remove_buckets_length, hbuckets2,
      getD_set_self _ _ _ _ hi]
    exact assoc_noKey hnk12
  refine ⟨by rw [remove_fst, hget], by omega, hget2, ?_, ?_, ?_, ?_⟩
  · intro k' hkk
    rw [get_eq_assoc_bucket hash _ hL2 k', get_eq_assoc_bucket hash m hL k',
      remove_buckets_length, hbuckets2]
    by_cases hij : bucketIdx hash m.buckets.length k' =
        bucketIdx hash m.buckets.length k
    · rw [hij, getD_set_self _ _ _ _ hi, hb, assoc_middle _ _ (Ne.symm hkk)]
    · rw [getD_set_ne _ _ _ (fun hc => hij hc.symm)]
  · rw [hitems, totalLen_eq_flatten, hflat2]
    have hold : m.items = totalLen m := h1
    rw [totalLen_eq_flatten, hdecomp, hb] at hold
    simp only [List.length_append, List.length_cons] at hold ⊢
    omega
  · unfold keys
    rw [hflat2]
    exact List.Nodup.sublist (List.Sublist.map Prod.fst hsub) h2
  · intro j hj p hp
    rw [List.mem_range, remove_buckets_length] at hj
    rw [remove_buckets_length]
    rw [hbuckets2] at hp
    by_cases hij : bucketIdx hash m.buckets.length k = j
    · rw [← hij] at hp ⊢
      rw [getD_set_self _ _ _ _ hi] at hp
      refine h3 _ (List.mem_range.mpr hi) p ?_
      rw [hb]
      rcases List.mem_append.mp hp with hp | hp
      · simp [hp]
      · simp [hp]
    · rw [getD_set_ne _ _ _ hij] at hp
      exact h3 j (List.mem_range.mpr hj) p hp

theorem Inv_remove (hash : K → Nat) {m : HashMap K V} (h : Inv hash m)
    (k : K) : Inv hash (remove hash m k).2 := by
  rcases hg : get hash m k with _ | v
  · rw [remove_none hash m k hg]
    exact h
  · exact (remove_found hash h hg).2.2.2.2

/-! ### Lemmas about clear and the empty table -/

theorem getD_map_const_nil {α β : Type} (l : List α) (j : Nat) :
    (l.map (fun _ => ([] : List β))).getD j [] = [] := by
  induction l generalizing j with
  | nil => cases j <;> rfl
  | cons a l ih =>
    cases j with
    | zero => rfl
    | succ j =>
      rw [List.map_cons, List.getD_cons_succ]
      exact ih j

theorem flatten_map_const_nil {α β : Type} (l : List α) :
    (l.map (fun _ => ([] : List β))).flatten = [] := by
  induction l with
  | nil => rfl
  | cons a l ih =>
    rw [List.map_cons, List.flatten_cons, List.nil_append]
    exact ih

theorem clear_buckets_length (m : HashMap K V) :
    (clear m).buckets.length = m.buckets.length := by
  unfold clear
  exact List.length_map _ _

theorem get_clear (hash : K → Nat) (m : HashMap K V) (k : K) :
    get hash (clear m) k = none := by
  by_cases he : (clear m).buckets.isEmpty
  · unfold get
    rw [if_pos he]
  · have hL := buckets_length_pos he
    rw [get_eq_assoc_bucket hash _ hL k]
    show assoc k ((m.buckets.map fun _ => []).getD _ []) = none
    rw [getD_map_const_nil]
    rfl

theorem Inv_clear (hash : K → Nat) (m : HashMap K V) :
    Inv hash (clear m) := by
  refine ⟨?_, ?_, ?_⟩
  · rw [totalLen_eq_flatten]
    show 0 = ((m.buckets.map fun _ => []).flatten).length
    rw [flatten_map_const_nil]
    rfl
  · unfold keys
    show ((m.buckets.map fun _ => []).flatten.map Prod.fst).Nodup
    rw [flatten_map_const_nil]
    exact List.nodup_nil
  · intro j hj p hp
    have hp' : p ∈ (m.buckets.map fun _ => ([] : List (K × V))).getD j [] := hp
    rw [getD_map_const_nil] at hp'
    exact absurd hp' (List.not_mem_nil p)

theorem Inv_new (hash : K → Nat) : Inv hash (new K V) := by
  refine ⟨rfl, List.nodup_nil, ?_⟩
  intro j hj
  rw [List.mem_range] at hj
  exact absurd hj (by simp [new])

theorem Inv_applyOp (hash : K → Nat) {m : HashMap K V} (h : Inv hash m)
    (op : Op K V) : Inv hash (applyOp hash m op) := by
  cases op with
  | ins k v => exact Inv_insert hash h k v
  | del k => exact Inv_remove hash h k
  | clr => exact Inv_clear hash m

theorem Inv_foldl (hash : K → Nat) (ops : List (Op K V)) :
    ∀ m : HashMap K V, Inv hash m → Inv hash (ops.foldl (applyOp hash) m) := by
  induction ops with
  | nil => exact fun m h => h
  | cons op rest ih =>
    intro m h
    exact ih _ (Inv_applyOp hash h op)

theorem Inv_runOps (hash : K → Nat) (ops : List (Op K V)) :
    Inv hash (runOps hash ops) :=
  Inv_foldl hash ops _ (Inv_new hash)

theorem targetSize_eq (n : Nat) :
    targetSize n = if n = 0 then 10 else 2 * n := by
  cases n with
  | zero => rfl
  | succ n => simp [targetSize]

/-! ### Claim theorems -/

/-- C1: for every key k and value v, after calling insert(k, v) on any
table, a subsequent get(k) returns the value just inserted, regardless of
any resize that the insert triggered. -/
theorem claim_C1_insert_get_roundtrip (hash : K → Nat) (m : HashMap K V)
    (k : K) (v : V) : get hash (insert hash m k v).2 k = some v :=
  get_insert_self hash m k v

/-- C2: after every sequence of insert, remove, clear operations starting
from new(), len() equals the number of distinct keys present, and the
items field equals the sum of the bucket lengths. -/
theorem claim_C2_occupancy (hash : K → Nat) (ops : List (Op K V)) :
    len (runOps hash ops) = ((keys (runOps hash ops)).dedup).length ∧
    (runOps hash ops).items = totalLen (runOps hash ops) := by
  obtain ⟨h1, h2, h3⟩ := Inv_runOps hash ops
  refine ⟨?_, h1⟩
  rw [List.dedup_eq_self.mpr h2]
  show (runOps hash ops).items = _
  rw [h1, totalLen_eq_flatten]
  unfold keys
  rw [List.length_map]

/-- C3: inserting the same key twice with values v1 then v2 returns None
for the first insert and Some v1 for the second; the second insert leaves
the occupancy count unchanged and a subsequent get returns v2. -/
theorem claim_C3_overwrite (hash : K → Nat) {m : HashMap K V} (k : K)
    (v₁ v₂ : V) (hInv : Inv hash m) (habsent : get hash m k = none) :
    (insert hash m k v₁).1 = none ∧
    (insert hash (insert hash m k v₁).2 k v₂).1 = some v₁ ∧
    (insert hash (insert hash m k v₁).2 k v₂).2.items =
      (insert hash m k v₁).2.items ∧
    get hash (insert hash (insert hash m k v₁).2 k v₂).2 k = some v₂ := by
  have hInv1 : Inv hash (insert hash m k v₁).2 := Inv_insert hash hInv k v₁
  have hget1 : get hash (insert hash m k v₁).2 k = some v₁ :=
    get_insert_self hash m k v₁
  refine ⟨?_, ?_, ?_, get_insert_self hash _ k v₂⟩
  · rw [insert_fst hash hInv k v₁, habsent]
  · rw [insert_fst hash hInv1 k v₂, hget1]
  · rw [insert_items_formula hash hInv1 k v₂, hget1]

/-- C3 witness: the two-insert scenario evaluated on a fresh table over
Nat keys with the identity hash. -/
theorem claim_C3_witness :
    (Inv (fun n => n) (new Nat Nat) ∧
      get (fun n => n) (new Nat Nat) 0 = none) ∧
    ((insert (fun n => n) (new Nat Nat) 0 1).1 = none ∧
      (insert (fun n => n) (insert (fun n => n) (new Nat Nat) 0 1).2 0 2).1 = some 1 ∧
      (insert (fun n => n) (insert (fun n => n) (new Nat Nat) 0 1).2 0 2).2.items =
        (insert (fun n => n) (new Nat Nat) 0 1).2.items ∧
      get (fun n => n) (insert (fun n => n)
        (insert (fun n => n) (new Nat Nat) 0 1).2 0 2).2 0 = some 2) :=
  ⟨⟨by decide, by decide⟩,
    claim_C3_overwrite (fun n => n) 0 1 2 (by decide) (by decide)⟩

/-- C4: insert resizes exactly when the bucket array is empty or items
exceeds 3/4 of the bucket count; a resize of an empty array yields 10
buckets (so the first insert into a fresh table leaves 10 buckets) and a
resize of a non-empty array doubles the bucket count. -/
theorem claim_C4_resize_policy (hash : K → Nat) (m : HashMap K V) (k : K)
    (v : V) :
    (insert hash m k v).2.buckets.length =
      (if m.buckets.isEmpty = true ∨ m.items > 3 * m.buckets.length / 4
        then (if m.buckets.length = 0 then 10 else 2 * m.buckets.length)
        else m.buckets.length) ∧
    (resize hash m).buckets.length =
      (if m.buckets.length = 0 then 10 else 2 * m.buckets.length) ∧
    (insert hash (new K V) k v).2.buckets.length = 10 := by
  refine ⟨?_, by rw [resize_length, targetSize_eq], ?_⟩
  · have hlen : (insert hash m k v).2.buckets.length =
        (insertPre hash m).buckets.length := by
      rw [insert_buckets, List.length_set]
    rw [hlen]
    unfold insertPre needsResize
    by_cases hcond : (m.buckets.isEmpty ||
        decide (m.items > 3 * m.buckets.length / 4)) = true
    · rw [if_pos hcond, resize_length, targetSize_eq]
      simp only [Bool.or_eq_true, decide_eq_true_eq] at hcond
      rw [if_pos hcond]
    · rw [if_neg hcond]
      have hcond' : ¬ (m.buckets.isEmpty = true ∨
          m.items > 3 * m.buckets.length / 4) := by
        simpa [Bool.or_eq_true, decide_eq_true_eq] using hcond
      rw [if_neg hcond']
  · have hlen : (insert hash (new K V) k v).2.buckets.length =
        (insertPre hash (new K V)).buckets.length := by
      rw [insert_buckets, List.length_set]
    rw [hlen]
    show (resize hash (new K V)).buckets.length = 10
    rw [resize_length]
    rfl

/-- C5: resize preserves the multiset of stored pairs, places every pair
in the bucket selected by its hash modulo the new bucket count, and leaves
the result of get unchanged for every key. -/
theorem claim_C5_resize_transparency (hash : K → Nat) {m : HashMap K V}
    (hInv : Inv hash m) :
    ((resize hash m).buckets.flatten).Perm m.buckets.flatten ∧
    Placed hash (resize hash m) ∧
    ∀ k, get hash (resize hash m) k = get hash m k :=
  ⟨resize_flatten_perm hash m, resize_placed hash m,
    fun k => get_resize hash hInv k⟩

/-- C5 witness: resize transparency evaluated on a one-entry table over
Nat keys with the identity hash. -/
theorem claim_C5_witness :
    Inv (fun n => n) (⟨[[(0, 5)]], 1⟩ : HashMap Nat Nat) ∧
    (((resize (fun n => n) (⟨[[(0, 5)]], 1⟩ : HashMap Nat Nat)).buckets.flatten).Perm
        (⟨[[(0, 5)]], 1⟩ : HashMap Nat Nat).buckets.flatten ∧
      Placed (fun n => n) (resize (fun n => n) (⟨[[(0, 5)]], 1⟩ : HashMap Nat Nat)) ∧
      ∀ k, get (fun n => n) (resize (fun n => n) (⟨[[(0, 5)]], 1⟩ : HashMap Nat Nat)) k =
        get (fun n => n) (⟨[[(0, 5)]], 1⟩ : HashMap Nat Nat) k) :=
  ⟨by decide, claim_C5_resize_transparency (fun n => n) (by decide)⟩

/-- C6: remove of a present key returns the stored value, decrements the
count by exactly one, deletes exactly that entry; remove of an absent key
returns none and leaves the table unchanged; remove never changes the
bucket array length. -/
theorem claim_C6_remove (hash : K → Nat) {m : HashMap K V} (hInv : Inv hash m)
    (k : K) :
    (remove hash m k).2.buckets.length = m.buckets.length ∧
    (remove hash m k).1 = get hash m k ∧
    (get hash m k = none → remove hash m k = (none, m)) ∧
    (∀ v, get hash m k = some v →
      (remove hash m k).1 = some v ∧
      (remove hash m k).2.items + 1 = m.items ∧
      get hash (remove hash m k).2 k = none ∧
      (∀ k', k' ≠ k → get hash (remove hash m k).2 k' = get hash m k')) := by
  refine ⟨remove_buckets_length hash m k, remove_fst hash m k,
    remove_none hash m k, ?_⟩
  intro v hv
  obtain ⟨a, b, c, d, -⟩ := remove_found hash hInv hv
  exact ⟨a, b, c, d⟩

/-- C6 witness: removal evaluated on a one-entry table over Nat keys with
the identity hash. -/
theorem claim_C6_witness :
    Inv (fun n => n) (⟨[[(0, 5)]], 1⟩ : HashMap Nat Nat) ∧
    ((remove (fun n => n) (⟨[[(0, 5)]], 1⟩ : HashMap Nat Nat) 0).2.buckets.length =
        (⟨[[(0, 5)]], 1⟩ : HashMap Nat Nat).buckets.length ∧
      (remove (fun n => n) (⟨[[(0, 5)]], 1⟩ : HashMap Nat Nat) 0).1 =
        get (fun n => n) (⟨[[(0, 5)]], 1⟩ : HashMap Nat Nat) 0 ∧
      (get (fun n => n) (⟨[[(0, 5)]], 1⟩ : HashMap Nat Nat) 0 = none →
        remove (fun n => n) (⟨[[(0, 5)]], 1⟩ : HashMap Nat Nat) 0 =
          (none, (⟨[[(0, 5)]], 1⟩ : HashMap Nat Nat))) ∧
      (∀ v, get (fun n => n) (⟨[[(0, 5)]], 1⟩ : HashMap Nat Nat) 0 = some v →
        (remove (fun n => n) (⟨[[(0, 5)]], 1⟩ : HashMap Nat Nat) 0).1 = some v ∧
        (remove (fun n => n) (⟨[[(0, 5)]], 1⟩ : HashMap Nat Nat) 0).2.items + 1 =
          (⟨[[(0, 5)]], 1⟩ : HashMap Nat Nat).items ∧
        get (fun n => n) (remove (fun n => n)
          (⟨[[(0, 5)]], 1⟩ : HashMap Nat Nat) 0).2 0 = none ∧
        (∀ k', k' ≠ 0 → get (fun n => n) (remove (fun n => n)
          (⟨[[(0, 5)]], 1⟩ : HashMap Nat Nat) 0).2 k' =
          get (fun n => n) (⟨[[(0, 5)]], 1⟩ : HashMap Nat Nat) k'))) :=
  ⟨by decide, claim_C6_remove (fun n => n) (by decide) 0⟩

/-- C7: with an empty bucket array, get, get_mut, contains_key and remove
report not-found immediately, and insert only ever computes a bucket index
against a positive bucket count, so the modulo in the bucket-index
computation never divides by zero. -/
theorem claim_C7_empty_fast_path (hash : K → Nat) (m : HashMap K V) (k : K)
    (he : m.buckets = []) :
    get hash m k = none ∧ getMut hash m k = none ∧
    containsKey hash m k = false ∧ remove hash m k = (none, m) ∧
    (∀ m' : HashMap K V, 0 < (insertPre hash m').buckets.length) := by
  have he' : m.buckets.isEmpty = true := List.isEmpty_iff.mpr he
  refine ⟨?_, ?_, ?_, remove_of_empty hash m k he',
    fun m' => insertPre_length_pos hash m'⟩
  · unfold get
    rw [if_pos he']
  · unfold getMut
    rw [if_pos he']
  · unfold containsKey get
    rw [if_pos he']
    rfl

/-- C7 witness: the empty fast path evaluated on a fresh table over Nat
keys with the identity hash. -/
theorem claim_C7_witness :
    (new Nat Nat).buckets = [] ∧
    (get (fun n => n) (new Nat Nat) 7 = none ∧
      getMut (fun n => n) (new Nat Nat) 7 = none ∧
      containsKey (fun n => n) (new Nat Nat) 7 = false ∧
      remove (fun n => n) (new Nat Nat) 7 = (none, new Nat Nat) ∧
      (∀ m' : HashMap Nat Nat, 0 < (insertPre (fun n => n) m').buckets.length)) :=
  ⟨rfl, claim_C7_empty_fast_path (fun n => n) (new Nat Nat) 7 rfl⟩

/-- C8: after clear, len is 0, is_empty holds, get misses for every key,
and the bucket array length is exactly what it was before. -/
theorem claim_C8_clear (hash : K → Nat) (m : HashMap K V) :
    len (clear m) = 0 ∧ isEmpty (clear m) = true ∧
    (∀ k, get hash (clear m) k = none) ∧
    (clear m).buckets.length = m.buckets.length :=
  ⟨rfl, rfl, get_clear hash m, clear_buckets_length m⟩

/-- C9: contains_key is true exactly when get finds a value, and is_empty
is true exactly when len is zero. -/
theorem claim_C9_derived_ops (hash : K → Nat) (m : HashMap K V) (k : K) :
    (containsKey hash m k = true ↔ ∃ v, get hash m k = some v) ∧
    (isEmpty m = true ↔ len m = 0) := by
  constructor
  · unfold containsKey
    rw [Option.isSome_iff_exists]
  · unfold isEmpty len
    simp

/-- C10: the bucket-index computation is a pure function of the key, so
equal keys get equal indices, and running the same operations on equal
tables (in particular two fresh tables) yields identical return values and
states. -/
theorem claim_C10_determinism (hash : K → Nat) (n : Nat) (k₁ k₂ : K)
    (m₁ m₂ : HashMap K V) (ops : List (Op K V)) (hk : k₁ = k₂)
    (hm : m₁ = m₂) :
    bucketIdx hash n k₁ = bucketIdx hash n k₂ ∧
    runTrace hash m₁ ops = runTrace hash m₂ ops ∧
    runTrace hash (new K V) ops = runTrace hash (new K V) ops := by
  subst hk
  subst hm
  exact ⟨rfl, rfl, rfl⟩

/-- C10 witness: determinism evaluated at concrete keys, tables and an
operation list over Nat keys with the identity hash. -/
theorem claim_C10_witness :
    ((3 : Nat) = 3 ∧ new Nat Nat = new Nat Nat) ∧
    (bucketIdx (fun n => n) 10 3 = bucketIdx (fun n => n) 10 3 ∧
      runTrace (fun n => n) (new Nat Nat) [Op.ins 1 2, Op.del 1] =
        runTrace (fun n => n) (new Nat Nat) [Op.ins 1 2, Op.del 1] ∧
      runTrace (fun n => n) (new Nat Nat) [Op.ins 1 2, Op.del 1] =
        runTrace (fun n => n) (new Nat Nat) [Op.ins 1 2, Op.del 1]) :=
  ⟨⟨rfl, rfl⟩, claim_C10_determinism (fun n => n) 10 3 3 (new Nat Nat)
    (new Nat Nat) [Op.ins 1 2, Op.del 1] rfl rfl⟩

end HashMap
